import Mathlib

/-!
# Verification of `src/Simulation_Study.py`

A shallow embedding of the SimPy M/M/1 buffer-queue simulation.
Virtual time and random draws are rationals (`ℚ`); Python's unbounded
ints are `Int`/`Nat`.  The mutable module globals (lines 30-44 of the
source) form `SimState`; the three process bodies (`generator`,
`server`, `monitor`, lines 57-109) are translated as pure state
transformers, and the SimPy event loop (`env.run(until=...)`, line 118)
as an executable discrete-event scheduler ordered by
`(time, priority, eid)` exactly as SimPy orders its event heap.
-/

/-- `Packet` (source lines 47-54): immutable record carrying the
sequential id, the byte size (`int(random.expovariate(...))`, a
non-negative integer) and the creation (virtual) time. -/
structure Packet where
  id : Nat
  size : Nat
  time : ℚ
deriving Repr, DecidableEq

/-- The mutable module globals of the source (lines 30-44), bundled as
one record.  `queue` is the `simpy.Store`'s `items` list; all other
fields keep the source's names. -/
structure SimState where
  queue : List Packet
  byte_size : Int
  packets_sent : Nat
  packets_rec : Nat
  packets_drop : Nat
  packets_queue : Nat
  queue_times : List ℚ
  queue_sizes : List Nat
  byte_sizes : List Int
  packet_times : List ℚ
  samp_time : List ℚ
  packets_recorded : Nat
  bytes_recorded : Nat
  queue_avg_sizes : List ℚ
  queue_avg_times : List ℚ
deriving Repr, DecidableEq

/-- The initial values of the module globals (source lines 30-44):
empty queue, all counters zero, all series empty. -/
def initState : SimState :=
  { queue := []
    byte_size := 0
    packets_sent := 0
    packets_rec := 0
    packets_drop := 0
    packets_queue := 0
    queue_times := []
    queue_sizes := []
    byte_sizes := []
    packet_times := []
    samp_time := []
    packets_recorded := 0
    bytes_recorded := 0
    queue_avg_sizes := []
    queue_avg_times := [] }

/-- The experiment configuration constants (source lines 19-27).
Field names keep the source's constant names.  `RANDOM_SEED` selects
the pseudorandom stream; `QUEUE_LIMIT` is compared against byte / item
counts, hence `Int`. -/
structure Config where
  SERVER_RATE : ℚ
  TIME_ARRIVAL : ℚ
  SIZE_PACKET : ℚ
  RANDOM_SEED : Nat
  SIMULATION_TIME : ℚ
  NUMBER_PACKETS : Nat
  QUEUE_LIMIT : Int
  LIMIT_BYTES : Bool
  SAMPLING_INTERVALL : ℚ
deriving Repr, DecidableEq

/-- `toQueue` (source lines 76-89), the admission control.  Python
increments `packets_rec` first in every branch; `queue_byte_count =
byte_size + packet.size` is the byte-mode candidate occupancy.  In
byte mode (`LIMIT_BYTES`) the packet is dropped when
`queue_byte_count >= QUEUE_LIMIT`; in count mode it is dropped when
`len(queue.items) >= QUEUE_LIMIT` (the *current* length, not the
candidate length).  Otherwise `byte_size` is updated, `packets_queue`
incremented and the packet appended to the tail (`queue.put`).  The
returned `Bool` records whether a `put` was issued (the source returns
the put event in the admit branch and `None` otherwise). -/
def toQueue (lb : Bool) (L : Int) (packet : Packet) (s : SimState) :
    SimState × Bool :=
  if lb = true ∧ L ≤ s.byte_size + (packet.size : Int) then
    ({ s with packets_rec := s.packets_rec + 1
              packets_drop := s.packets_drop + 1 }, false)
  else if lb = false ∧ L ≤ (s.queue.length : Int) then
    ({ s with packets_rec := s.packets_rec + 1
              packets_drop := s.packets_drop + 1 }, false)
  else
    ({ s with packets_rec := s.packets_rec + 1
              byte_size := s.byte_size + (packet.size : Int)
              packets_queue := s.packets_queue + 1
              queue := s.queue ++ [packet] }, true)

/-- `recorder` (source lines 92-99): at completion time `now`, append
the queueing delay `now - packet.time`, the completion timestamp
`now`, the updated running average of the delays, and bump the
completion counters. -/
def recorder (now : ℚ) (packet : Packet) (s : SimState) : SimState :=
  let queue_times := s.queue_times ++ [now - packet.time]
  let packet_times := s.packet_times ++ [now]
  let queue_avg_times :=
    s.queue_avg_times ++ [queue_times.sum / (queue_times.length : ℚ)]
  { s with queue_times := queue_times
           packet_times := packet_times
           queue_avg_times := queue_avg_times
           packets_recorded := s.packets_recorded + 1
           bytes_recorded := s.bytes_recorded + packet.size }

/-- The body of one `monitor` resumption (source lines 106-109): read
`byte_size` and the queue length without mutating the queue, append
both, the updated running average of the lengths, and the sample
timestamp `now`. -/
def monitorSample (now : ℚ) (s : SimState) : SimState :=
  let byte_sizes := s.byte_sizes ++ [s.byte_size]
  let queue_sizes := s.queue_sizes ++ [s.queue.length]
  let queue_avg_sizes :=
    s.queue_avg_sizes ++
      [((queue_sizes.map (fun n => (n : ℚ))).sum) / (queue_sizes.length : ℚ)]
  { s with byte_sizes := byte_sizes
           queue_sizes := queue_sizes
           queue_avg_sizes := queue_avg_sizes
           samp_time := s.samp_time ++ [now] }

/-- `serviceDuration` (source line 71): `packet.size*8.0/SERVER_RATE`,
the serial transmission time of the packet at the server bit rate. -/
def serviceDuration (SERVER_RATE : ℚ) (packet : Packet) : ℚ :=
  (packet.size : ℚ) * 8 / SERVER_RATE

/-!
## The SimPy event loop

SimPy dispatches events in lexicographic `(time, priority, eid)` order:
`URGENT = 0` (process-initialisation events, triggered put/get events,
the `until` stop event), `NORMAL = 1` (timeouts), `eid` a global
creation counter.  `env.process` is called for the generator, the
server and the monitor in that order (source lines 115-117), giving
their initialisation events eids 0,1,2; `env.run(until=T)` (line 118)
then schedules the stop event at `(T, URGENT, 3)` and pops events until
that event would pop.

`random.expovariate` is modelled as an abstract family
`expo : seed → draw-index → lambd → ℚ` of non-negative variates: the
value of the k-th `expovariate(lambd)` call of the run under the given
seed.  The generator performs exactly two draws per iteration, the
inter-arrival delay (`expovariate(1/TIME_ARRIVAL)`, line 60) then the
packet size (`expovariate(1/SIZE_PACKET)`, line 62), so draw indices
advance sequentially.
-/

/-- The pending resumptions of the three processes and of the store's
triggered put/get events.  `putDone` is the processing of a succeeded
`queue.put` (its callback wakes a waiting getter); `getSucceed p` is
the server's resumption after `yield queue.get()` returned `p`;
`servDone p` is the server's resumption after the service timeout of
`p`; `genResume` is the generator's resumption after an inter-arrival
timeout; `monResume` the monitor's after a sampling timeout. -/
inductive ProcEv where
  | genInit
  | servInit
  | monInit
  | genResume
  | putDone
  | getSucceed (p : Packet)
  | servDone (p : Packet)
  | monResume
deriving Repr, DecidableEq

/-- A scheduled event: due time, SimPy priority (0 = URGENT,
1 = NORMAL), creation id, and the resumption it carries. -/
structure Ev where
  time : ℚ
  prio : Nat
  eid : Nat
  what : ProcEv
deriving Repr, DecidableEq

/-- SimPy's heap order on events: lexicographic `(time, prio, eid)`
(written as a trichotomy chain so that concrete runs evaluate). -/
def evBefore (a b : Ev) : Bool :=
  if a.time < b.time then true
  else if b.time < a.time then false
  else if a.prio < b.prio then true
  else if b.prio < a.prio then false
  else decide (a.eid ≤ b.eid)

/-- Insert an event keeping the list sorted by `evBefore` (eids are
unique, so this realises SimPy's heap order exactly). -/
def insertEv (ev : Ev) : List Ev → List Ev
  | [] => [ev]
  | e :: rest => if evBefore e ev then e :: insertEv ev rest else ev :: e :: rest

/-- The whole simulation environment: SimPy's clock and event heap,
the global eid counter, the index of the next `expovariate` draw, the
number of generator iterations still to run, whether the server's
`get` is waiting on an empty store, and the module globals. -/
structure EnvState where
  now : ℚ
  events : List Ev
  nextEid : Nat
  rng : Nat
  genLeft : Nat
  serverWaiting : Bool
  sim : SimState
deriving Repr, DecidableEq

/-- Schedule a resumption `delay` after the current time (SimPy
`schedule`): it receives the next eid. -/
def schedule (delay : ℚ) (prio : Nat) (w : ProcEv) (e : EnvState) : EnvState :=
  { e with events := insertEv ⟨e.now + delay, prio, e.nextEid, w⟩ e.events
           nextEid := e.nextEid + 1 }

/-- The server's `queue.get()` call (source line 69): if the store has
items, the head is removed at once and the get event succeeds (URGENT,
current time); on an empty store the server becomes the waiting
getter. -/
def serverGet (e : EnvState) : EnvState :=
  match e.sim.queue with
  | [] => { e with serverWaiting := true }
  | p :: rest =>
      schedule 0 0 (.getSucceed p)
        { e with sim := { e.sim with queue := rest } }

/-- Processing of a succeeded put event: its callback triggers the get
queue, so a waiting getter receives the store's head (removed now; the
getter's resumption is scheduled URGENT at the current time). -/
def triggerGet (e : EnvState) : EnvState :=
  if e.serverWaiting then
    match e.sim.queue with
    | [] => e
    | p :: rest =>
        schedule 0 0 (.getSucceed p)
          { e with serverWaiting := false
                   sim := { e.sim with queue := rest } }
  else e

/-- Dispatch one popped event, translated from the three process
bodies (source lines 57-109).  The generator resumption performs
`packets_sent += 1`, builds `Packet(packets_sent,
int(expovariate(1/SIZE_PACKET)), env.now)`, calls `toQueue` (whose
`put` schedules the put event before the generator's next timeout is
created), and, while iterations remain, draws the next inter-arrival
delay.  The server decrements `byte_size` when its get succeeds and
schedules the service timeout `serviceDuration` later; at service end
it records and issues the next `get`.  The monitor samples and
re-arms its `1/SAMPLING_INTERVALL` timeout. -/
def dispatch (cfg : Config) (rnd : Nat → ℚ → ℚ) (w : ProcEv)
    (e : EnvState) : EnvState :=
  match w with
  | .genInit =>
      if cfg.NUMBER_PACKETS = 0 then e
      else
        schedule (rnd e.rng (1 / cfg.TIME_ARRIVAL)) 1 .genResume
          { e with rng := e.rng + 1, genLeft := cfg.NUMBER_PACKETS }
  | .genResume =>
      let sent := e.sim.packets_sent + 1
      let packet : Packet := ⟨sent, (⌊rnd e.rng (1 / cfg.SIZE_PACKET)⌋).toNat, e.now⟩
      let r := toQueue cfg.LIMIT_BYTES cfg.QUEUE_LIMIT packet
        { e.sim with packets_sent := sent }
      let e1 := { e with sim := r.1, rng := e.rng + 1 }
      let e2 := if r.2 then schedule 0 0 .putDone e1 else e1
      if e.genLeft - 1 = 0 then { e2 with genLeft := 0 }
      else
        schedule (rnd e2.rng (1 / cfg.TIME_ARRIVAL)) 1 .genResume
          { e2 with rng := e2.rng + 1, genLeft := e.genLeft - 1 }
  | .servInit => serverGet e
  | .putDone => triggerGet e
  | .getSucceed p =>
      schedule (serviceDuration cfg.SERVER_RATE p) 1 (.servDone p)
        { e with sim := { e.sim with byte_size := e.sim.byte_size - (p.size : Int) } }
  | .servDone p => serverGet { e with sim := recorder e.now p e.sim }
  | .monInit =>
      schedule (1 / cfg.SAMPLING_INTERVALL) 1 .monResume e
  | .monResume =>
      schedule (1 / cfg.SAMPLING_INTERVALL) 1 .monResume
        { e with sim := monitorSample e.now e.sim }

/-- `env.run(until=T)` halts when the earliest event would not beat the
stop event `(T, URGENT, 3)`: the popped event is dispatched only when
`(time, prio, eid) < (T, 0, 3)` lexicographically. -/
def haltsAt (cfg : Config) (ev : Ev) : Bool :=
  if ev.time < cfg.SIMULATION_TIME then false
  else if cfg.SIMULATION_TIME < ev.time then true
  else decide (0 < ev.prio ∨ 3 ≤ ev.eid)

/-- The event loop, fuelled: pop the earliest event, stop at the
horizon, otherwise advance the clock to its due time and dispatch. -/
def runAux (cfg : Config) (rnd : Nat → ℚ → ℚ) : Nat → EnvState → EnvState
  | 0, e => e
  | n + 1, e =>
      match e.events with
      | [] => e
      | ev :: rest =>
          if haltsAt cfg ev then e
          else
            runAux cfg rnd n
              (dispatch cfg rnd ev.what { e with events := rest, now := ev.time })

/-- The environment right after lines 112-118 set up: the three
process-initialisation events at `(0, URGENT, 0/1/2)`; eid 3 is taken
by the stop event. -/
def initEnv : EnvState :=
  { now := 0
    events := [⟨0, 0, 0, .genInit⟩, ⟨0, 0, 1, .servInit⟩, ⟨0, 0, 2, .monInit⟩]
    nextEid := 4
    rng := 0
    genLeft := 0
    serverWaiting := false
    sim := initState }

/-- One whole run of the simulation (source lines 112-118): seed the
random stream, create the three processes, run to the horizon, and
return the module globals.  `expo seed k lambd` is the k-th
`expovariate(lambd)` value under `seed`. -/
def runSim (cfg : Config) (expo : Nat → Nat → ℚ → ℚ) (fuel : Nat) : SimState :=
  (runAux cfg (expo cfg.RANDOM_SEED) fuel initEnv).sim

/-!
## Atomic observable transitions

Spec §5: the store's mutations happen exclusively inside `tryAdmit`
(`toQueue`) and `take`, each an atomic step relative to the cooperative
scheduler.  `Step` is that atomic-mutation semantics of the module
globals: a generator arrival (increment `packets_sent`, build the
packet, run `toQueue`), the server taking the head (the pop performed
by the store's get trigger together with the `byte_size` decrement of
line 70 — both complete, URGENT, before any other process resumes at
that instant), a completion record, and a monitor sample.  Labels
record what happened, so runs are traces of labels. -/
inductive Label where
  | arrive (p : Packet) (ok : Bool)
  | take (p : Packet)
  | record (now : ℚ) (p : Packet)
  | sample (now : ℚ)
deriving Repr, DecidableEq

/-- One atomic observable transition of the module globals, for a run
configured with buffer mode `lb` and limit `L`. -/
inductive Step (lb : Bool) (L : Int) : SimState → Label → SimState → Prop where
  | arrive (now : ℚ) (sz : Nat) (s : SimState) :
      Step lb L s
        (.arrive ⟨s.packets_sent + 1, sz, now⟩
          (toQueue lb L ⟨s.packets_sent + 1, sz, now⟩
            { s with packets_sent := s.packets_sent + 1 }).2)
        (toQueue lb L ⟨s.packets_sent + 1, sz, now⟩
          { s with packets_sent := s.packets_sent + 1 }).1
  | take (p : Packet) (rest : List Packet) (s : SimState)
      (h : s.queue = p :: rest) :
      Step lb L s (.take p)
        { s with queue := rest, byte_size := s.byte_size - (p.size : Int) }
  | record (now : ℚ) (p : Packet) (s : SimState) :
      Step lb L s (.record now p) (recorder now p s)
  | sample (now : ℚ) (s : SimState) :
      Step lb L s (.sample now) (monitorSample now s)

/-- `Reaches lb L s tr t`: from `s`, the trace `tr` of atomic
transitions leads to `t`. -/
inductive Reaches (lb : Bool) (L : Int) : SimState → List Label → SimState → Prop where
  | refl (s : SimState) : Reaches lb L s [] s
  | step {s : SimState} {tr : List Label} {t u : SimState} {l : Label} :
      Reaches lb L s tr t → Step lb L t l u → Reaches lb L s (tr ++ [l]) u

/-- The packets admitted to the store along a trace, in order. -/
def admitsOf (tr : List Label) : List Packet :=
  tr.filterMap fun l =>
    match l with
    | .arrive p true => some p
    | _ => none

/-- The packets the server took from the store along a trace, in order. -/
def takesOf (tr : List Label) : List Packet :=
  tr.filterMap fun l =>
    match l with
    | .take p => some p
    | _ => none

/-- Total byte size of a list of packets. -/
def sumSizes (l : List Packet) : Int :=
  (l.map fun p => (p.size : Int)).sum

/-! ## Helper lemmas -/

lemma sumSizes_cons (p : Packet) (l : List Packet) :
    sumSizes (p :: l) = (p.size : Int) + sumSizes l := by
  simp [sumSizes]

lemma sumSizes_append_one (l : List Packet) (p : Packet) :
    sumSizes (l ++ [p]) = sumSizes l + (p.size : Int) := by
  simp [sumSizes]

lemma admitsOf_append (tr tr₂ : List Label) :
    admitsOf (tr ++ tr₂) = admitsOf tr ++ admitsOf tr₂ := by
  simp [admitsOf]

lemma takesOf_append (tr tr₂ : List Label) :
    takesOf (tr ++ tr₂) = takesOf tr ++ takesOf tr₂ := by
  simp [takesOf]

/-- Case analysis of `toQueue`: `packets_rec` is always incremented,
and the result is either the admit update (with `put` issued) or the
drop update. -/
lemma toQueue_cases (lb : Bool) (L : Int) (p : Packet) (s : SimState) :
    ((toQueue lb L p s).2 = true ∧
      (toQueue lb L p s).1 =
        { s with packets_rec := s.packets_rec + 1
                 byte_size := s.byte_size + (p.size : Int)
                 packets_queue := s.packets_queue + 1
                 queue := s.queue ++ [p] }) ∨
    ((toQueue lb L p s).2 = false ∧
      (toQueue lb L p s).1 =
        { s with packets_rec := s.packets_rec + 1
                 packets_drop := s.packets_drop + 1 }) := by
  unfold toQueue
  split_ifs <;> simp

/-- The inductive invariant bundle over every reachable state of the
atomic-transition semantics: `byte_size` tracks the queue's byte sum,
`packets_rec` partitions into admitted and dropped, every generated
packet was submitted exactly once, and the admitted sequence is the
taken sequence followed by the current queue content. -/
theorem reaches_invariants (lb : Bool) (L : Int) (tr : List Label)
    (s : SimState) (h : Reaches lb L initState tr s) :
    s.byte_size = sumSizes s.queue ∧
    s.packets_rec = s.packets_queue + s.packets_drop ∧
    s.packets_sent = s.packets_rec ∧
    admitsOf tr = takesOf tr ++ s.queue := by
  induction h with
  | refl => simp [initState, sumSizes, admitsOf, takesOf]
  | @step tr₀ t u l h₁ h₂ ih =>
      obtain ⟨ih₁, ih₂, ih₃, ih₄⟩ := ih
      cases h₂ with
      | arrive now sz t =>
          rcases toQueue_cases lb L ⟨t.packets_sent + 1, sz, now⟩
              { t with packets_sent := t.packets_sent + 1 } with
            ⟨hb, he⟩ | ⟨hb, he⟩ <;> rw [hb, he] <;> refine ⟨?_, ?_, ?_, ?_⟩
          · simp [sumSizes_append_one, ih₁]
          · simp; omega
          · simp; omega
          · rw [admitsOf_append, takesOf_append, ih₄]
            simp [admitsOf, takesOf]
          · simpa using ih₁
          · simp; omega
          · simp; omega
          · rw [admitsOf_append, takesOf_append, ih₄]
            simp [admitsOf, takesOf]
      | take p rest t hq =>
          refine ⟨?_, ih₂, ih₃, ?_⟩
          · simp only []
            rw [ih₁, hq, sumSizes_cons]
            ring
          · rw [admitsOf_append, takesOf_append, ih₄, hq]
            simp [admitsOf, takesOf]
      | record now p t =>
          refine ⟨ih₁, ih₂, ih₃, ?_⟩
          · rw [admitsOf_append, takesOf_append, ih₄]
            simp [admitsOf, takesOf, recorder]
      | sample now t =>
          refine ⟨ih₁, ih₂, ih₃, ?_⟩
          · rw [admitsOf_append, takesOf_append, ih₄]
            simp [admitsOf, takesOf, monitorSample]

/-- In COUNT_LIMITED mode (`LIMIT_BYTES = False`) with a non-negative
limit, the queue length never exceeds the limit: `toQueue` admits only
while the current length is strictly below it. -/
lemma reaches_count_length (L : Int) (tr : List Label) (s : SimState)
    (hL : 0 ≤ L) (h : Reaches false L initState tr s) :
    (s.queue.length : Int) ≤ L := by
  induction h with
  | refl => simpa [initState] using hL
  | @step tr₀ t u l h₁ h₂ ih =>
      cases h₂ with
      | arrive now sz t =>
          by_cases hc : L ≤ (t.queue.length : Int)
          · simp [toQueue, hc]
            omega
          · simp [toQueue, hc]
            omega
      | take p rest t hq =>
          simp only []
          rw [hq] at ih
          simp at ih ⊢
          omega
      | record now p t => simpa [recorder] using ih
      | sample now t => simpa [monitorSample] using ih

/-- A concrete reachable state used by the witnesses: the admitted
arrival of an 80-byte packet into the empty buffer (byte mode,
limit 150). -/
def s80 : SimState :=
  (toQueue true 150 ⟨1, 80, 0⟩ { initState with packets_sent := 1 }).1

lemma reaches_s80 :
    Reaches true 150 initState [.arrive ⟨1, 80, 0⟩ true] s80 := by
  have h := Reaches.step (Reaches.refl initState)
    (@Step.arrive true 150 0 80 initState)
  have e₁ : ([] ++ [Label.arrive ⟨initState.packets_sent + 1, 80, 0⟩
      (toQueue true 150 ⟨initState.packets_sent + 1, 80, 0⟩
        { initState with packets_sent := initState.packets_sent + 1 }).2] :
      List Label) = [Label.arrive ⟨1, 80, 0⟩ true] := by decide
  have e₂ : (toQueue true 150 ⟨initState.packets_sent + 1, 80, 0⟩
      { initState with packets_sent := initState.packets_sent + 1 }).1 = s80 := by
    decide
  exact e₁ ▸ e₂ ▸ h

/-- **C4**: at every reachable state `packets_rec = packets_queue +
packets_drop`, and one further submission to `toQueue` increments
`packets_rec` exactly once and exactly one of `packets_queue`
(admitted) or `packets_drop` (dropped). -/
theorem received_eq_admitted_plus_dropped (lb : Bool) (L : Int)
    (p : Packet) (tr : List Label) (s : SimState)
    (h : Reaches lb L initState tr s) :
    s.packets_rec = s.packets_queue + s.packets_drop ∧
    (toQueue lb L p s).1.packets_rec = s.packets_rec + 1 ∧
    (toQueue lb L p s).1.packets_queue + (toQueue lb L p s).1.packets_drop =
      s.packets_queue + s.packets_drop + 1 := by
  refine ⟨(reaches_invariants lb L tr s h).2.1, ?_, ?_⟩ <;>
    rcases toQueue_cases lb L p s with ⟨hb, he⟩ | ⟨hb, he⟩ <;> rw [he] <;>
    simp <;> omega

theorem received_eq_admitted_plus_dropped_witness :
    s80.packets_rec = s80.packets_queue + s80.packets_drop ∧
    (toQueue true 150 ⟨2, 60, 1⟩ s80).1.packets_rec = s80.packets_rec + 1 ∧
    (toQueue true 150 ⟨2, 60, 1⟩ s80).1.packets_queue +
      (toQueue true 150 ⟨2, 60, 1⟩ s80).1.packets_drop =
      s80.packets_queue + s80.packets_drop + 1 :=
  received_eq_admitted_plus_dropped true 150 ⟨2, 60, 1⟩
    [.arrive ⟨1, 80, 0⟩ true] s80 reaches_s80

/-- **C10**: at every reachable state the sent counter equals the
received counter — every generated packet is submitted to admission
control exactly once, which bumps `packets_rec` once. -/
theorem sent_eq_received (lb : Bool) (L : Int) (tr : List Label)
    (s : SimState) (h : Reaches lb L initState tr s) :
    s.packets_sent = s.packets_rec :=
  (reaches_invariants lb L tr s h).2.2.1

theorem sent_eq_received_witness : s80.packets_sent = s80.packets_rec :=
  sent_eq_received true 150 [.arrive ⟨1, 80, 0⟩ true] s80 reaches_s80

/-- **C6**: along every reachable trace the sequence of packets the
server has taken is an initial segment of the sequence of admitted
packets — admitted order is dequeue order (FIFO): the admitted
sequence is exactly the taken sequence followed by the packets still
resident, so the server always takes the earliest-admitted packet
still in the buffer. -/
theorem fifo_order (lb : Bool) (L : Int) (tr : List Label)
    (s : SimState) (h : Reaches lb L initState tr s) :
    admitsOf tr = takesOf tr ++ s.queue ∧
    (admitsOf tr).take (takesOf tr).length = takesOf tr := by
  have h₄ := (reaches_invariants lb L tr s h).2.2.2
  exact ⟨h₄, by rw [h₄]; exact List.take_left _ _⟩

theorem fifo_order_witness :
    admitsOf [.arrive ⟨1, 80, 0⟩ true] =
      takesOf [.arrive ⟨1, 80, 0⟩ true] ++ s80.queue ∧
    (admitsOf [.arrive ⟨1, 80, 0⟩ true]).take
      (takesOf [.arrive ⟨1, 80, 0⟩ true]).length =
      takesOf [.arrive ⟨1, 80, 0⟩ true] :=
  fifo_order true 150 [.arrive ⟨1, 80, 0⟩ true] s80 reaches_s80

/-- **C1** (counterexample): COUNT_LIMITED mode with limit 1 and an
empty queue.  The claim's candidate occupancy is `0 + 1 = 1 ≥ limit`,
so the claim requires the packet to be Dropped; the code compares the
*current* length (`len(queue.items) >= QUEUE_LIMIT`, i.e. `0 ≥ 1`,
false) and admits it — and the queue length then *reaches* the limit,
which the claim says can never be attained. -/
theorem count_limit_attained :
    (toQueue false 1 ⟨1, 5, 0⟩ initState).1.packets_drop = 0 ∧
    (toQueue false 1 ⟨1, 5, 0⟩ initState).1.packets_queue = 1 ∧
    (toQueue false 1 ⟨1, 5, 0⟩ initState).1.queue.length = 1 := by decide

/-- **C1** (amended): in COUNT_LIMITED mode `toQueue` rejects a
candidate exactly when the *current* queue length is already `≥` the
limit — equivalently, the candidate occupancy `length + 1` is rejected
when it *exceeds* the limit, not when it equals it — and admits it
(appending to the tail) otherwise; consequently the queue length can
attain, but never exceed, the configured limit. -/
theorem count_mode_admission (L : Int) (p : Packet) (tr : List Label)
    (s : SimState) (hL : 0 ≤ L) (h : Reaches false L initState tr s) :
    (L ≤ (s.queue.length : Int) →
      (toQueue false L p s).1.packets_drop = s.packets_drop + 1 ∧
      (toQueue false L p s).1.queue = s.queue ∧
      (toQueue false L p s).2 = false) ∧
    ((s.queue.length : Int) < L →
      (toQueue false L p s).1.packets_queue = s.packets_queue + 1 ∧
      (toQueue false L p s).1.queue = s.queue ++ [p] ∧
      (toQueue false L p s).2 = true) ∧
    (s.queue.length : Int) ≤ L := by
  refine ⟨?_, ?_, reaches_count_length L tr s hL h⟩
  · intro hc
    simp [toQueue, hc]
  · intro hc
    simp [toQueue, not_le.mpr hc]

theorem count_mode_admission_witness :
    0 ≤ (1 : Int) ∧
    ((1 ≤ ((initState.queue.length : Int)) →
      (toQueue false 1 ⟨1, 5, 0⟩ initState).1.packets_drop =
        initState.packets_drop + 1 ∧
      (toQueue false 1 ⟨1, 5, 0⟩ initState).1.queue = initState.queue ∧
      (toQueue false 1 ⟨1, 5, 0⟩ initState).2 = false) ∧
    (((initState.queue.length : Int)) < 1 →
      (toQueue false 1 ⟨1, 5, 0⟩ initState).1.packets_queue =
        initState.packets_queue + 1 ∧
      (toQueue false 1 ⟨1, 5, 0⟩ initState).1.queue =
        initState.queue ++ [⟨1, 5, 0⟩] ∧
      (toQueue false 1 ⟨1, 5, 0⟩ initState).2 = true) ∧
    ((initState.queue.length : Int)) ≤ 1) :=
  ⟨by decide,
   count_mode_admission 1 ⟨1, 5, 0⟩ [] initState (by decide) (Reaches.refl _)⟩

/-- The C5 concrete scenario: packets of sizes 80, 60, 50 submitted in
that order to the empty buffer in byte mode with limit 150, with no
departures in between. -/
def scenario150 : SimState :=
  (toQueue true 150 ⟨3, 50, 2⟩
    ((toQueue true 150 ⟨2, 60, 1⟩
      ((toQueue true 150 ⟨1, 80, 0⟩ initState).1)).1)).1

/-- **C5**: BYTE_LIMITED boundary.  With limit `L` and current
occupancy `B = byte_size`, a candidate of size `L - B` is dropped
(candidate occupancy `B + size = L ≥ L`) and a candidate of size
`L - B - 1` is admitted; and in the concrete 80/60/50 scenario with
limit 150 the first two packets are admitted, the third is dropped,
leaving `byte_size = 140`, `packets_drop = 1`, `packets_queue = 2`. -/
theorem byte_mode_boundary (L : Int) (s : SimState) (p q : Packet)
    (hp : (p.size : Int) = L - s.byte_size)
    (hq : (q.size : Int) = L - s.byte_size - 1) :
    ((toQueue true L p s).1.packets_drop = s.packets_drop + 1 ∧
     (toQueue true L p s).1.queue = s.queue ∧
     (toQueue true L p s).2 = false) ∧
    ((toQueue true L q s).1.packets_queue = s.packets_queue + 1 ∧
     (toQueue true L q s).1.queue = s.queue ++ [q] ∧
     (toQueue true L q s).1.byte_size = s.byte_size + (q.size : Int) ∧
     (toQueue true L q s).2 = true) ∧
    scenario150.byte_size = 140 ∧
    scenario150.packets_drop = 1 ∧
    scenario150.packets_queue = 2 := by
  have hple : L ≤ s.byte_size + (p.size : Int) := by omega
  have hqlt : ¬ L ≤ s.byte_size + (q.size : Int) := by omega
  refine ⟨?_, ?_, by decide, by decide, by decide⟩
  · simp [toQueue, hple]
  · simp [toQueue, hqlt]

theorem byte_mode_boundary_witness :
    ((⟨1, 150, 0⟩ : Packet).size : Int) = 150 - initState.byte_size ∧
    ((⟨1, 149, 0⟩ : Packet).size : Int) = 150 - initState.byte_size - 1 ∧
    (((toQueue true 150 ⟨1, 150, 0⟩ initState).1.packets_drop =
        initState.packets_drop + 1 ∧
      (toQueue true 150 ⟨1, 150, 0⟩ initState).1.queue = initState.queue ∧
      (toQueue true 150 ⟨1, 150, 0⟩ initState).2 = false) ∧
    ((toQueue true 150 ⟨1, 149, 0⟩ initState).1.packets_queue =
        initState.packets_queue + 1 ∧
      (toQueue true 150 ⟨1, 149, 0⟩ initState).1.queue =
        initState.queue ++ [⟨1, 149, 0⟩] ∧
      (toQueue true 150 ⟨1, 149, 0⟩ initState).1.byte_size =
        initState.byte_size + ((⟨1, 149, 0⟩ : Packet).size : Int) ∧
      (toQueue true 150 ⟨1, 149, 0⟩ initState).2 = true) ∧
    scenario150.byte_size = 140 ∧
    scenario150.packets_drop = 1 ∧
    scenario150.packets_queue = 2) :=
  ⟨by decide, by decide,
   byte_mode_boundary 150 initState ⟨1, 150, 0⟩ ⟨1, 149, 0⟩
     (by decide) (by decide)⟩

/-- **C2**: determinism.  The whole run is a pure function of the
configuration (seed included) and of the `expovariate` family, so two
runs with identical configuration values, the same pseudorandom
generator and the same event-loop fuel produce identical counters and
identical statistics series, element for element. -/
theorem run_deterministic (c₁ c₂ : Config) (e₁ e₂ : Nat → Nat → ℚ → ℚ)
    (n₁ n₂ : Nat) (hc : c₁ = c₂) (he : e₁ = e₂) (hn : n₁ = n₂) :
    (runSim c₁ e₁ n₁).packets_sent = (runSim c₂ e₂ n₂).packets_sent ∧
    (runSim c₁ e₁ n₁).packets_rec = (runSim c₂ e₂ n₂).packets_rec ∧
    (runSim c₁ e₁ n₁).packets_drop = (runSim c₂ e₂ n₂).packets_drop ∧
    (runSim c₁ e₁ n₁).packets_queue = (runSim c₂ e₂ n₂).packets_queue ∧
    (runSim c₁ e₁ n₁).packets_recorded = (runSim c₂ e₂ n₂).packets_recorded ∧
    (runSim c₁ e₁ n₁).bytes_recorded = (runSim c₂ e₂ n₂).bytes_recorded ∧
    (runSim c₁ e₁ n₁).queue_times = (runSim c₂ e₂ n₂).queue_times ∧
    (runSim c₁ e₁ n₁).packet_times = (runSim c₂ e₂ n₂).packet_times ∧
    (runSim c₁ e₁ n₁).queue_sizes = (runSim c₂ e₂ n₂).queue_sizes ∧
    (runSim c₁ e₁ n₁).byte_sizes = (runSim c₂ e₂ n₂).byte_sizes ∧
    (runSim c₁ e₁ n₁).samp_time = (runSim c₂ e₂ n₂).samp_time ∧
    (runSim c₁ e₁ n₁).queue_avg_sizes = (runSim c₂ e₂ n₂).queue_avg_sizes ∧
    (runSim c₁ e₁ n₁).queue_avg_times = (runSim c₂ e₂ n₂).queue_avg_times := by
  subst hc he hn
  exact ⟨rfl, rfl, rfl, rfl, rfl, rfl, rfl, rfl, rfl, rfl, rfl, rfl, rfl⟩

/-- The C7 configuration: server rate 1000 bits per time unit, one
packet, horizon 2, sampling period 1, an admitting byte limit. -/
def cfg7 : Config :=
  { SERVER_RATE := 1000, TIME_ARRIVAL := 1, SIZE_PACKET := 100
    RANDOM_SEED := 42, SIMULATION_TIME := 2, NUMBER_PACKETS := 1
    QUEUE_LIMIT := 100000, LIMIT_BYTES := true, SAMPLING_INTERVALL := 1 }

/-- The C7 pseudorandom family: the first `expovariate` value (the
inter-arrival delay) is 0, the second (the packet size) is 125, so a
single 125-byte packet arrives at time 0 to an otherwise idle
system. -/
def expo7 : Nat → Nat → ℚ → ℚ := fun _ k _ => if k = 0 then 0 else 125

theorem run_deterministic_witness :
    cfg7 = cfg7 ∧ expo7 = expo7 ∧ (10 : Nat) = 10 ∧
    (runSim cfg7 expo7 10).packets_sent = (runSim cfg7 expo7 10).packets_sent ∧
    (runSim cfg7 expo7 10).samp_time = (runSim cfg7 expo7 10).samp_time :=
  ⟨rfl, rfl, rfl,
   (run_deterministic cfg7 cfg7 expo7 expo7 10 10 rfl rfl rfl).1,
   (run_deterministic cfg7 cfg7 expo7 expo7 10 10 rfl rfl rfl).2.2.2.2.2.2.2.2.2.2.1⟩

set_option maxHeartbeats 2000000 in
/-- **C7**: the service duration of a 125-byte packet at rate 1000 is
`125*8/1000 = 1` exactly, and in the full run of the C7 scenario (one
125-byte packet arriving at time 0 to an otherwise idle system) the
recorded completion timestamp is exactly 1, the recorded queueing
delay exactly 1 time unit after an arrival at 0, with one packet and
125 bytes completed. -/
theorem single_packet_completion :
    serviceDuration 1000 ⟨1, 125, 0⟩ = 1 ∧
    (runSim cfg7 expo7 10).packet_times = [1] ∧
    (runSim cfg7 expo7 10).queue_times = [1] ∧
    (runSim cfg7 expo7 10).packets_recorded = 1 ∧
    (runSim cfg7 expo7 10).bytes_recorded = 125 := by
  norm_num [runSim, runAux, dispatch, schedule, insertEv, evBefore, haltsAt,
    serverGet, triggerGet, toQueue, recorder, monitorSample, serviceDuration,
    initEnv, initState, expo7, cfg7, Int.floor_ofNat, Int.toNat]

/-- The monitor's sampling instants (source line 105): the monitor's
timeouts accumulate one sampling period `P = 1/SAMPLING_INTERVALL`
per loop iteration starting from time 0, so its k-th sample (0-based)
is taken at `(k+1)·P`; under `env.run(until=H)` that sample is
recorded iff `(k+1)·P < H` (a NORMAL timeout due at `≥ H` loses to the
stop event `(H, URGENT, 3)`). -/
def sampleInstant (P : ℚ) (k : Nat) : ℚ := ((k : ℚ) + 1) * P

/-- The number of samples the monitor records before horizon `H`:
the number of `k ≥ 1` with `k·P < H` (closed form; the C8 theorem
below proves it is the length of the run's recorded sample series). -/
def numSamples (P H : ℚ) : Nat := (⌈H / P⌉ - 1).toNat

/-- A monitor-only configuration: no packets, horizon 5, sampling
period 1 — the generator terminates at once and only the monitor
produces events. -/
def cfgMon : Config :=
  { SERVER_RATE := 1000, TIME_ARRIVAL := 1, SIZE_PACKET := 100
    RANDOM_SEED := 42, SIMULATION_TIME := 5, NUMBER_PACKETS := 0
    QUEUE_LIMIT := 100000, LIMIT_BYTES := true, SAMPLING_INTERVALL := 1 }

/-!
## The monitor chain through the event loop

To settle C8 for every configuration we prove an invariant of the
event loop: the heap always holds exactly one monitor event — first
the initialisation at time 0, afterwards the single pending sampling
timeout at `(k+1)·P` after `k` recorded samples — and `samp_time` is
exactly `[P, 2P, …, kP]`.  No other dispatch touches either. -/

/-- Whether a resumption belongs to the monitor process. -/
def isMonProc : ProcEv → Bool
  | .monInit => true
  | .monResume => true
  | _ => false

/-- Whether an event resumes the monitor process. -/
def isMonEv (ev : Ev) : Bool := isMonProc ev.what

/-- The monitor's pending events in an event list. -/
def monEvents (l : List Ev) : List Ev := l.filter isMonEv

lemma evBefore_iff (a b : Ev) :
    evBefore a b = true ↔
      (a.time < b.time ∨ (a.time = b.time ∧
        (a.prio < b.prio ∨ (a.prio = b.prio ∧ a.eid ≤ b.eid)))) := by
  unfold evBefore
  split_ifs with h1 h2 h3 h4
  · simp [h1]
  · have hne : ¬ a.time = b.time := fun he => absurd h2 (by rw [he]; exact lt_irrefl _)
    simp [h1, hne]
  · have he : a.time = b.time := le_antisymm (not_lt.mp h2) (not_lt.mp h1)
    simp [h1, he, h3]
  · have he : a.time = b.time := le_antisymm (not_lt.mp h2) (not_lt.mp h1)
    have hp : ¬ a.prio = b.prio := by omega
    simp [h1, he, h3, hp]
  · have he : a.time = b.time := le_antisymm (not_lt.mp h2) (not_lt.mp h1)
    have hp : a.prio = b.prio := by omega
    simp [h1, he, h3, hp]

lemma evBefore_total (a b : Ev) (h : evBefore a b = false) :
    evBefore b a = true := by
  have hna : ¬ (a.time < b.time ∨ (a.time = b.time ∧
      (a.prio < b.prio ∨ (a.prio = b.prio ∧ a.eid ≤ b.eid)))) := by
    rw [← evBefore_iff, h]
    simp
  push_neg at hna
  obtain ⟨ht, hrest⟩ := hna
  rw [evBefore_iff]
  rcases lt_trichotomy b.time a.time with h1 | h1 | h1
  · left; exact h1
  · obtain ⟨hp, heid⟩ := hrest h1.symm
    right
    refine ⟨h1, ?_⟩
    by_cases hpp : a.prio = b.prio
    · have h3 := heid hpp
      omega
    · omega
  · exact absurd h1 (not_lt.mpr ht)

lemma evBefore_trans {a b c : Ev} (hab : evBefore a b = true)
    (hbc : evBefore b c = true) : evBefore a c = true := by
  rw [evBefore_iff] at hab hbc ⊢
  rcases hab with h | ⟨he, hp⟩ <;> rcases hbc with h2 | ⟨he2, hp2⟩
  · left; linarith
  · left; rw [← he2]; exact h
  · left; rw [he]; exact h2
  · right; exact ⟨he.trans he2, by omega⟩

lemma evBefore_time_le {a b : Ev} (h : evBefore a b = true) :
    a.time ≤ b.time := by
  rw [evBefore_iff] at h
  rcases h with h | ⟨he, _⟩
  · exact le_of_lt h
  · exact le_of_eq he

lemma insertEv_length (ev : Ev) (l : List Ev) :
    (insertEv ev l).length = l.length + 1 := by
  induction l with
  | nil => rfl
  | cons e rest ih =>
      simp only [insertEv]
      split_ifs <;> simp [ih]

lemma mem_insertEv {a ev : Ev} {l : List Ev} :
    a ∈ insertEv ev l ↔ a = ev ∨ a ∈ l := by
  induction l with
  | nil => simp [insertEv]
  | cons e rest ih =>
      simp only [insertEv]
      split_ifs <;> simp [ih] <;> tauto

lemma filter_insertEv_of_neg (p : Ev → Bool) (ev : Ev) (l : List Ev)
    (h : p ev = false) : (insertEv ev l).filter p = l.filter p := by
  induction l with
  | nil => simp [insertEv, h]
  | cons e rest ih =>
      simp only [insertEv]
      split_ifs with hb
      · rw [List.filter_cons, List.filter_cons, ih]
      · simp [List.filter_cons, h]

lemma filter_insertEv_of_pos (p : Ev → Bool) (ev : Ev) (l : List Ev)
    (hp : p ev = true) (h0 : l.filter p = []) :
    (insertEv ev l).filter p = [ev] := by
  induction l with
  | nil => simp [insertEv, hp]
  | cons e rest ih =>
      rw [List.filter_cons] at h0
      by_cases he : p e = true
      · simp [he] at h0
      · have he2 : p e = false := by simpa using he
        rw [he2] at h0
        simp only [Bool.false_eq_true, if_false] at h0
        simp only [insertEv]
        split_ifs with hb
        · rw [List.filter_cons, he2]
          simpa using ih h0
        · simp [List.filter_cons, hp, he2, h0]

/-- The event heap sorted by SimPy's `(time, prio, eid)` order. -/
def EvSorted (l : List Ev) : Prop :=
  List.Pairwise (fun a b => evBefore a b = true) l

lemma insertEv_sorted (ev : Ev) (l : List Ev) (h : EvSorted l) :
    EvSorted (insertEv ev l) := by
  induction l with
  | nil => simp [insertEv, EvSorted]
  | cons e rest ih =>
      obtain ⟨hhead, htail⟩ := List.pairwise_cons.mp h
      simp only [insertEv]
      split_ifs with hb
      · refine List.pairwise_cons.mpr ⟨?_, ih htail⟩
        intro x hx
        rcases mem_insertEv.mp hx with rfl | hx2
        · exact hb
        · exact hhead x hx2
      · refine List.pairwise_cons.mpr ⟨?_, h⟩
        intro x hx
        have hev : evBefore ev e = true := evBefore_total e ev (by simpa using hb)
        rcases List.mem_cons.mp hx with rfl | hx2
        · exact hev
        · exact evBefore_trans hev (hhead x hx2)

lemma toQueue_samp_time (lb : Bool) (L : Int) (p : Packet) (s : SimState) :
    (toQueue lb L p s).1.samp_time = s.samp_time := by
  rw [toQueue]
  split_ifs <;> rfl

lemma schedule_samp_time (d : ℚ) (pr : Nat) (w : ProcEv) (e : EnvState) :
    (schedule d pr w e).sim.samp_time = e.sim.samp_time := rfl

lemma schedule_monEvents (d : ℚ) (pr : Nat) (w : ProcEv) (e : EnvState)
    (hw : isMonProc w = false) :
    monEvents (schedule d pr w e).events = monEvents e.events :=
  filter_insertEv_of_neg _ _ _ (by simpa [isMonEv] using hw)

lemma schedule_sorted (d : ℚ) (pr : Nat) (w : ProcEv) (e : EnvState)
    (hs : EvSorted e.events) : EvSorted (schedule d pr w e).events :=
  insertEv_sorted _ _ hs

lemma serverGet_nonmon (e : EnvState) (hs : EvSorted e.events) :
    (serverGet e).sim.samp_time = e.sim.samp_time ∧
    monEvents (serverGet e).events = monEvents e.events ∧
    EvSorted (serverGet e).events := by
  rw [serverGet]
  cases hq : e.sim.queue with
  | nil => exact ⟨rfl, rfl, hs⟩
  | cons p rest =>
      exact ⟨rfl, schedule_monEvents _ _ _ _ rfl, schedule_sorted _ _ _ _ hs⟩

lemma triggerGet_nonmon (e : EnvState) (hs : EvSorted e.events) :
    (triggerGet e).sim.samp_time = e.sim.samp_time ∧
    monEvents (triggerGet e).events = monEvents e.events ∧
    EvSorted (triggerGet e).events := by
  rw [triggerGet]
  split_ifs with hw
  · cases hq : e.sim.queue with
    | nil => exact ⟨rfl, rfl, hs⟩
    | cons p rest =>
        exact ⟨rfl, schedule_monEvents _ _ _ _ rfl, schedule_sorted _ _ _ _ hs⟩
  · exact ⟨rfl, rfl, hs⟩

lemma monEvents_insertEv_neg (ev : Ev) (l : List Ev)
    (h : isMonEv ev = false) :
    monEvents (insertEv ev l) = monEvents l :=
  filter_insertEv_of_neg _ _ _ h

/-- A dispatch of any non-monitor resumption leaves the recorded
sample series untouched, schedules no monitor event, and keeps the
heap sorted. -/
lemma dispatch_nonmon (cfg : Config) (rnd : Nat → ℚ → ℚ) (w : ProcEv)
    (hw : isMonProc w = false) (e : EnvState) (hs : EvSorted e.events) :
    (dispatch cfg rnd w e).sim.samp_time = e.sim.samp_time ∧
    monEvents (dispatch cfg rnd w e).events = monEvents e.events ∧
    EvSorted (dispatch cfg rnd w e).events := by
  cases w with
  | monInit => simp [isMonProc] at hw
  | monResume => simp [isMonProc] at hw
  | servInit => exact serverGet_nonmon e hs
  | putDone => exact triggerGet_nonmon e hs
  | servDone p =>
      have h := serverGet_nonmon { e with sim := recorder e.now p e.sim } hs
      exact ⟨h.1, h.2.1, h.2.2⟩
  | genInit =>
      simp only [dispatch]
      split_ifs with h
      · exact ⟨rfl, rfl, hs⟩
      · refine ⟨rfl, ?_, ?_⟩
        · simp [schedule, monEvents_insertEv_neg, isMonEv, isMonProc]
        · exact insertEv_sorted _ _ hs
  | genResume =>
      simp only [dispatch]
      split_ifs with h1 h2 h3 <;> refine ⟨?_, ?_, ?_⟩ <;>
        first
          | exact hs
          | exact insertEv_sorted _ _ hs
          | exact insertEv_sorted _ _ (insertEv_sorted _ _ hs)
          | (simp [schedule, toQueue_samp_time]; done)
          | (simp [schedule, monEvents_insertEv_neg, isMonEv, isMonProc]; done)
  | getSucceed p =>
      simp only [dispatch]
      refine ⟨rfl, ?_, ?_⟩
      · simp [schedule, monEvents_insertEv_neg, isMonEv, isMonProc]
      · exact insertEv_sorted _ _ hs

/-- The monitor-chain invariant of the event loop: the heap is sorted
and holds exactly one monitor event — before the monitor's
initialisation was dispatched, that initialisation at time 0 with an
empty sample series; afterwards, the single pending sampling timeout
at `sampleInstant P k` after `k` recorded samples, with `samp_time`
exactly the instants `P, 2P, …, kP`, the last one below the horizon. -/
def MonState (P H : ℚ) (e : EnvState) : Prop :=
  EvSorted e.events ∧
  ((e.sim.samp_time = [] ∧
      ∃ i, monEvents e.events = [⟨0, 0, i, .monInit⟩]) ∨
   (∃ k i, e.sim.samp_time = (List.range k).map (fun j => sampleInstant P j) ∧
      monEvents e.events = [⟨sampleInstant P k, 1, i, .monResume⟩] ∧
      (k = 0 ∨ (k : ℚ) * P < H)))

lemma monState_init (P H : ℚ) : MonState P H initEnv := by
  constructor
  · rw [initEnv, EvSorted]
    refine List.pairwise_cons.mpr ⟨?_, List.pairwise_cons.mpr ⟨?_, ?_⟩⟩ <;>
      simp [evBefore_iff]
  · exact Or.inl ⟨rfl, 2, rfl⟩

lemma haltsAt_false_lt (cfg : Config) (ev : Ev) (hp : ev.prio = 1)
    (h : haltsAt cfg ev = false) : ev.time < cfg.SIMULATION_TIME := by
  rw [haltsAt] at h
  split_ifs at h with h1 h2
  · exact h1
  · rw [hp] at h
    simp at h

lemma haltsAt_true_le (cfg : Config) (ev : Ev) (h : haltsAt cfg ev = true) :
    cfg.SIMULATION_TIME ≤ ev.time := by
  rw [haltsAt] at h
  split_ifs at h with h1 h2
  · exact le_of_lt h2
  · exact le_of_not_lt h1

/-- One non-halting step of the event loop preserves the monitor-chain
invariant. -/
lemma monState_step (cfg : Config) (rnd : Nat → ℚ → ℚ) (P : ℚ)
    (hP : P = 1 / cfg.SAMPLING_INTERVALL) (e : EnvState) (ev : Ev)
    (rest : List Ev) (hev : e.events = ev :: rest)
    (hhalt : haltsAt cfg ev = false)
    (hm : MonState P cfg.SIMULATION_TIME e) :
    MonState P cfg.SIMULATION_TIME
      (dispatch cfg rnd ev.what { e with events := rest, now := ev.time }) := by
  obtain ⟨hsort, hphase⟩ := hm
  rw [hev] at hsort
  have hsrest : EvSorted rest := (List.pairwise_cons.mp hsort).2
  by_cases hmon : isMonEv ev = true
  · -- the head is the monitor's single pending event
    rcases hphase with ⟨ha, i, hb⟩ | ⟨k, i, ha, hb, hc⟩
    · -- the pending monitor event is the initialisation at time 0
      rw [hev] at hb
      simp only [monEvents, List.filter_cons, hmon, if_true] at hb
      obtain ⟨hbe, hb0⟩ := List.cons_eq_cons.mp hb
      subst hbe
      simp only [dispatch]
      constructor
      · exact schedule_sorted _ _ _ _ hsrest
      · refine Or.inr ⟨0, e.nextEid, by simpa using ha, ?_, Or.inl rfl⟩
        show monEvents (insertEv _ rest) = _
        rw [monEvents, filter_insertEv_of_pos _ _ _ rfl hb0]
        have htime : (0 : ℚ) + 1 / cfg.SAMPLING_INTERVALL = sampleInstant P 0 := by
          rw [hP, sampleInstant]
          push_cast
          ring
        rw [htime]
    · -- the pending monitor event is the sampling timeout at (k+1)·P
      rw [hev] at hb
      simp only [monEvents, List.filter_cons, hmon, if_true] at hb
      obtain ⟨hbe, hb0⟩ := List.cons_eq_cons.mp hb
      subst hbe
      simp only [dispatch]
      constructor
      · exact schedule_sorted _ _ _ _ hsrest
      · refine Or.inr ⟨k + 1, e.nextEid, ?_, ?_, Or.inr ?_⟩
        · show (monitorSample _ e.sim).samp_time = _
          rw [monitorSample]
          simp only [ha, List.range_succ, List.map_append]
          rfl
        · show monEvents (insertEv _ rest) = _
          rw [monEvents, filter_insertEv_of_pos _ _ _ rfl hb0]
          have htime : sampleInstant P k + 1 / cfg.SAMPLING_INTERVALL =
              sampleInstant P (k + 1) := by
            rw [hP, sampleInstant, sampleInstant]
            push_cast
            ring
          rw [htime]
        · have hlt := haltsAt_false_lt cfg _ rfl hhalt
          rw [sampleInstant] at hlt
          push_cast
          simpa using hlt
  · -- the head belongs to another process
    have hw : isMonProc ev.what = false := by simpa [isMonEv] using hmon
    obtain ⟨h1, h2, h3⟩ :=
      dispatch_nonmon cfg rnd ev.what hw { e with events := rest, now := ev.time }
        hsrest
    have hre : monEvents rest = monEvents e.events := by
      rw [hev, monEvents, monEvents, List.filter_cons]
      simp only [Bool.not_eq_true] at hmon
      rw [hmon]
      simp
    refine ⟨h3, ?_⟩
    rcases hphase with ⟨ha, i, hb⟩ | ⟨k, i, ha, hb, hc⟩
    · exact Or.inl ⟨by rw [h1]; exact ha, i, by rw [h2]; rw [hre, hb]⟩
    · exact Or.inr ⟨k, i, by rw [h1]; exact ha, by rw [h2]; rw [hre, hb], hc⟩

/-- The monitor-chain invariant is preserved by the whole event loop. -/
lemma monState_runAux (cfg : Config) (rnd : Nat → ℚ → ℚ) (P : ℚ)
    (hP : P = 1 / cfg.SAMPLING_INTERVALL) (n : Nat) (e : EnvState)
    (hm : MonState P cfg.SIMULATION_TIME e) :
    MonState P cfg.SIMULATION_TIME (runAux cfg rnd n e) := by
  induction n generalizing e with
  | zero => exact hm
  | succ n ih =>
      cases hev : e.events with
      | nil =>
          rw [runAux, hev]
          exact hm
      | cons ev rest =>
          rw [runAux, hev]
          by_cases hh : haltsAt cfg ev = true
          · simp only [hh, if_true]
            exact hm
          · have hh2 : haltsAt cfg ev = false := by simpa using hh
            simp only [hh2, Bool.false_eq_true, if_false]
            exact ih _ (monState_step cfg rnd P hP e ev rest hev hh2 hm)

/-- A state whose earliest event would not beat the stop event (or
whose heap is empty) is a fixed point of the event loop. -/
lemma runAux_halted (cfg : Config) (rnd : Nat → ℚ → ℚ) (n : Nat)
    (e : EnvState)
    (h : e.events = [] ∨
      ∃ ev rest, e.events = ev :: rest ∧ haltsAt cfg ev = true) :
    runAux cfg rnd n e = e := by
  cases n with
  | zero => rfl
  | succ n =>
      rcases h with h | ⟨ev, rest, hev, hh⟩
      · rw [runAux, h]
      · rw [runAux, hev]
        simp [hh]

lemma runAux_succ_comm (cfg : Config) (rnd : Nat → ℚ → ℚ) (n : Nat)
    (e : EnvState) :
    runAux cfg rnd (n + 1) e = runAux cfg rnd 1 (runAux cfg rnd n e) := by
  induction n generalizing e with
  | zero => rfl
  | succ n ih =>
      cases hev : e.events with
      | nil =>
          rw [runAux_halted cfg rnd _ e (Or.inl hev),
            runAux_halted cfg rnd _ e (Or.inl hev),
            runAux_halted cfg rnd _ e (Or.inl hev)]
      | cons ev rest =>
          by_cases hh : haltsAt cfg ev = true
          · rw [runAux_halted cfg rnd _ e (Or.inr ⟨ev, rest, hev, hh⟩),
              runAux_halted cfg rnd _ e (Or.inr ⟨ev, rest, hev, hh⟩),
              runAux_halted cfg rnd _ e (Or.inr ⟨ev, rest, hev, hh⟩)]
          · have hh2 : haltsAt cfg ev = false := by simpa using hh
            have hstep : ∀ m : Nat, runAux cfg rnd (m + 1) e =
                runAux cfg rnd m
                  (dispatch cfg rnd ev.what { e with events := rest, now := ev.time }) := by
              intro m
              rw [runAux, hev]
              simp [hh2]
            rw [hstep (n + 1), hstep n, ih]

/-- The loop's progress measure: each dispatched event pops one heap
entry and every `schedule` adds one entry and one eid, so
`nextEid - length` grows by exactly one per step. -/
def envMeasure (e : EnvState) : ℤ := (e.nextEid : ℤ) - e.events.length

lemma schedule_measure (d : ℚ) (pr : Nat) (w : ProcEv) (e : EnvState) :
    envMeasure (schedule d pr w e) = envMeasure e := by
  rw [envMeasure, envMeasure, schedule]
  simp [insertEv_length]

lemma serverGet_measure (e : EnvState) :
    envMeasure (serverGet e) = envMeasure e := by
  rw [serverGet]
  cases hq : e.sim.queue with
  | nil => rfl
  | cons p rest =>
      rw [schedule_measure]
      rfl

lemma triggerGet_measure (e : EnvState) :
    envMeasure (triggerGet e) = envMeasure e := by
  rw [triggerGet]
  split_ifs with hw
  · cases hq : e.sim.queue with
    | nil => rfl
    | cons p rest =>
        rw [schedule_measure]
        rfl
  · rfl

lemma dispatch_measure (cfg : Config) (rnd : Nat → ℚ → ℚ) (w : ProcEv)
    (e : EnvState) : envMeasure (dispatch cfg rnd w e) = envMeasure e := by
  cases w with
  | genInit =>
      simp only [dispatch]
      split_ifs with h
      · rfl
      · rw [schedule_measure]
        rfl
  | genResume =>
      simp only [dispatch]
      split_ifs with h1 h2 h3 <;>
        first
          | rfl
          | (rw [schedule_measure]; rfl)
          | (rw [schedule_measure, schedule_measure]; rfl)
          | (simp only [envMeasure, schedule, insertEv_length]; push_cast; ring)
  | servInit => exact serverGet_measure e
  | putDone => exact triggerGet_measure e
  | getSucceed p =>
      simp only [dispatch]
      rw [schedule_measure]
      rfl
  | servDone p =>
      simp only [dispatch]
      rw [serverGet_measure]
      rfl
  | monInit =>
      simp only [dispatch]
      rw [schedule_measure]
  | monResume =>
      simp only [dispatch]
      rw [schedule_measure]
      rfl

/-- If the loop makes a real step, the measure strictly increases, so
a stabilised run (`fuel+1` gives the same state as `fuel`) must have
halted: its heap is empty or its earliest event meets the horizon. -/
lemma stable_halted (cfg : Config) (rnd : Nat → ℚ → ℚ) (fuel : Nat)
    (h : runAux cfg rnd (fuel + 1) initEnv = runAux cfg rnd fuel initEnv) :
    (runAux cfg rnd fuel initEnv).events = [] ∨
    ∃ ev rest, (runAux cfg rnd fuel initEnv).events = ev :: rest ∧
      haltsAt cfg ev = true := by
  have h1 : runAux cfg rnd 1 (runAux cfg rnd fuel initEnv) =
      runAux cfg rnd fuel initEnv := by
    rw [← runAux_succ_comm]
    exact h
  cases hev : (runAux cfg rnd fuel initEnv).events with
  | nil => exact Or.inl rfl
  | cons ev rest =>
      by_cases hh : haltsAt cfg ev = true
      · exact Or.inr ⟨ev, rest, rfl, hh⟩
      · exfalso
        have hh2 : haltsAt cfg ev = false := by simpa using hh
        have h0 : ∀ x, runAux cfg rnd 0 x = x := fun _ => rfl
        have hM : envMeasure (runAux cfg rnd 1 (runAux cfg rnd fuel initEnv)) =
            envMeasure (runAux cfg rnd fuel initEnv) + 1 := by
          rw [runAux, hev]
          simp only [hh2, Bool.false_eq_true, if_false]
          rw [h0, dispatch_measure]
          rw [envMeasure, envMeasure, hev]
          simp only [List.length_cons]
          push_cast
          ring
        rw [h1] at hM
        omega

/-- The closed form: if the pending sample `(k+1)·P` has passed the
horizon while the last recorded one `k·P` has not, then `k` is
`numSamples P H`. -/
lemma numSamples_eq (P H : ℚ) (k : Nat) (hP : 0 < P) (hH : 0 < H)
    (hup : H ≤ ((k : ℚ) + 1) * P) (hlow : k = 0 ∨ (k : ℚ) * P < H) :
    numSamples P H = k := by
  have hceil : ⌈H / P⌉ = (k : ℤ) + 1 := by
    have h1 : ⌈H / P⌉ ≤ (k : ℤ) + 1 := by
      apply Int.ceil_le.mpr
      rw [div_le_iff₀ hP]
      push_cast
      exact hup
    have h2 : (k : ℤ) + 1 ≤ ⌈H / P⌉ := by
      rcases hlow with rfl | hlt
      · simpa using Int.ceil_pos.mpr (div_pos hH hP)
      · have hq : (k : ℚ) < H / P := (lt_div_iff₀ hP).mpr hlt
        have hq2 : (((k : ℤ) : ℚ)) < H / P := by push_cast; exact hq
        have hq3 : (k : ℤ) < ⌈H / P⌉ := Int.lt_ceil.mpr hq2
        omega
    omega
  rw [numSamples, hceil]
  simp

set_option maxHeartbeats 1000000 in
/-- **C8**: for every configuration — hence every sampling period
`P = 1/SAMPLING_INTERVALL > 0` and every horizon
`H = SIMULATION_TIME > 0` —, every pseudorandom family, and any fuel
on which the event loop has halted (one more step changes nothing),
the run's recorded sample timestamps are exactly
`P, 2P, …, (numSamples P H)·P`: their number is
`numSamples P H = ⌈H/P⌉ - 1`, which is within one of `⌊H/P⌋`; every
recorded timestamp is an exact non-zero multiple of `P`; and the first
recorded sample is at time `P`, not 0. -/
theorem monitor_sampling_run (cfg : Config) (expo : Nat → Nat → ℚ → ℚ)
    (fuel : Nat) (P : ℚ) (hP : P = 1 / cfg.SAMPLING_INTERVALL)
    (hPpos : 0 < P) (hH : 0 < cfg.SIMULATION_TIME)
    (hstable : runAux cfg (expo cfg.RANDOM_SEED) (fuel + 1) initEnv =
      runAux cfg (expo cfg.RANDOM_SEED) fuel initEnv) :
    (runSim cfg expo fuel).samp_time =
      (List.range (numSamples P cfg.SIMULATION_TIME)).map
        (fun j => sampleInstant P j) ∧
    (runSim cfg expo fuel).samp_time.length =
      numSamples P cfg.SIMULATION_TIME ∧
    (∀ t ∈ (runSim cfg expo fuel).samp_time,
      ∃ m : Nat, 1 ≤ m ∧ t = (m : ℚ) * P) ∧
    (0 < numSamples P cfg.SIMULATION_TIME →
      (runSim cfg expo fuel).samp_time.head? = some P) ∧
    |(numSamples P cfg.SIMULATION_TIME : ℤ) - ⌊cfg.SIMULATION_TIME / P⌋| ≤ 1 := by
  obtain ⟨hsort, hphase⟩ := monState_runAux cfg (expo cfg.RANDOM_SEED) P hP
    fuel initEnv (monState_init P cfg.SIMULATION_TIME)
  have hhalted := stable_halted cfg (expo cfg.RANDOM_SEED) fuel hstable
  rcases hphase with ⟨ha, i, hb⟩ | ⟨k, i, ha, hb, hc⟩
  · -- a halted run cannot still be awaiting the monitor initialisation
    exfalso
    have hmem : (⟨0, 0, i, .monInit⟩ : Ev) ∈
        (runAux cfg (expo cfg.RANDOM_SEED) fuel initEnv).events := by
      refine List.mem_of_mem_filter (p := isMonEv) ?_
      rw [show List.filter isMonEv
          (runAux cfg (expo cfg.RANDOM_SEED) fuel initEnv).events =
          [⟨0, 0, i, .monInit⟩] from hb]
      exact List.mem_singleton_self _
    rcases hhalted with hnil | ⟨ev, rest, hev, hh⟩
    · rw [hnil] at hmem
      exact absurd hmem (List.not_mem_nil _)
    · have hle := haltsAt_true_le cfg ev hh
      rw [hev] at hmem hsort
      rcases List.mem_cons.mp hmem with heq | hmem2
      · rw [← heq] at hle
        have h2 : cfg.SIMULATION_TIME ≤ 0 := by simpa using hle
        linarith
      · have hb2 := (List.pairwise_cons.mp hsort).1 _ hmem2
        have h2 : ev.time ≤ 0 := by simpa using evBefore_time_le hb2
        linarith
  · -- the pending sample has met the horizon: k = numSamples P H
    have hmem : (⟨sampleInstant P k, 1, i, .monResume⟩ : Ev) ∈
        (runAux cfg (expo cfg.RANDOM_SEED) fuel initEnv).events := by
      refine List.mem_of_mem_filter (p := isMonEv) ?_
      rw [show List.filter isMonEv
          (runAux cfg (expo cfg.RANDOM_SEED) fuel initEnv).events =
          [⟨sampleInstant P k, 1, i, .monResume⟩] from hb]
      exact List.mem_singleton_self _
    have hup : cfg.SIMULATION_TIME ≤ sampleInstant P k := by
      rcases hhalted with hnil | ⟨ev, rest, hev, hh⟩
      · rw [hnil] at hmem
        exact absurd hmem (List.not_mem_nil _)
      · have hle := haltsAt_true_le cfg ev hh
        rw [hev] at hmem hsort
        rcases List.mem_cons.mp hmem with heq | hmem2
        · rw [← heq] at hle
          simpa using hle
        · have hb2 := (List.pairwise_cons.mp hsort).1 _ hmem2
          have h2 : ev.time ≤ sampleInstant P k := by
            simpa using evBefore_time_le hb2
          linarith
    have hk : numSamples P cfg.SIMULATION_TIME = k := by
      refine numSamples_eq P _ k hPpos hH ?_ hc
      rw [sampleInstant] at hup
      exact hup
    have hmain : (runSim cfg expo fuel).samp_time =
        (List.range (numSamples P cfg.SIMULATION_TIME)).map
          (fun j => sampleInstant P j) := by
      rw [hk]
      exact ha
    refine ⟨hmain, ?_, ?_, ?_, ?_⟩
    · rw [hmain]
      simp
    · intro t ht
      rw [hmain] at ht
      simp only [List.mem_map, List.mem_range] at ht
      obtain ⟨j, hj, rfl⟩ := ht
      refine ⟨j + 1, by omega, ?_⟩
      rw [sampleInstant]
      push_cast
      ring
    · intro hpos
      obtain ⟨m, hm⟩ : ∃ m, numSamples P cfg.SIMULATION_TIME = m + 1 :=
        ⟨numSamples P cfg.SIMULATION_TIME - 1, by omega⟩
      rw [hmain, hm, List.range_succ_eq_map]
      simp [sampleInstant]
    · have h0 : 0 < ⌈cfg.SIMULATION_TIME / P⌉ :=
        Int.ceil_pos.mpr (div_pos hH hPpos)
      have hn : (numSamples P cfg.SIMULATION_TIME : ℤ) =
          ⌈cfg.SIMULATION_TIME / P⌉ - 1 := by
        rw [numSamples, Int.toNat_of_nonneg (by omega)]
      have hcf := Int.ceil_le_floor_add_one (cfg.SIMULATION_TIME / P)
      have hfc := Int.floor_le_ceil (cfg.SIMULATION_TIME / P)
      rw [abs_le]
      omega

/-- The monitor-only witness run is halted at fuel 12: one more step
changes nothing. -/
lemma cfgMon_stable :
    runAux cfgMon ((fun _ _ _ => (0 : ℚ)) cfgMon.RANDOM_SEED) (12 + 1) initEnv =
    runAux cfgMon ((fun _ _ _ => (0 : ℚ)) cfgMon.RANDOM_SEED) 12 initEnv := by
  norm_num [runAux, dispatch, schedule, insertEv, evBefore, haltsAt, serverGet,
    triggerGet, toQueue, recorder, monitorSample, serviceDuration, initEnv,
    initState, cfgMon, Int.floor_ofNat, Int.toNat]

theorem monitor_sampling_run_witness :
    (1 : ℚ) = 1 / cfgMon.SAMPLING_INTERVALL ∧ (0 : ℚ) < 1 ∧
    (0 : ℚ) < cfgMon.SIMULATION_TIME ∧
    runAux cfgMon ((fun _ _ _ => (0 : ℚ)) cfgMon.RANDOM_SEED) (12 + 1) initEnv =
      runAux cfgMon ((fun _ _ _ => (0 : ℚ)) cfgMon.RANDOM_SEED) 12 initEnv ∧
    ((runSim cfgMon (fun _ _ _ => 0) 12).samp_time =
      (List.range (numSamples 1 cfgMon.SIMULATION_TIME)).map
        (fun j => sampleInstant 1 j) ∧
     (runSim cfgMon (fun _ _ _ => 0) 12).samp_time.length =
       numSamples 1 cfgMon.SIMULATION_TIME ∧
     (∀ t ∈ (runSim cfgMon (fun _ _ _ => 0) 12).samp_time,
       ∃ m : Nat, 1 ≤ m ∧ t = (m : ℚ) * 1) ∧
     (0 < numSamples 1 cfgMon.SIMULATION_TIME →
       (runSim cfgMon (fun _ _ _ => 0) 12).samp_time.head? = some 1) ∧
     |(numSamples 1 cfgMon.SIMULATION_TIME : ℤ) -
        ⌊cfgMon.SIMULATION_TIME / 1⌋| ≤ 1) :=
  ⟨by norm_num [cfgMon], by norm_num, by norm_num [cfgMon], cfgMon_stable,
   monitor_sampling_run cfgMon (fun _ _ _ => 0) 12 1 (by norm_num [cfgMon])
     (by norm_num) (by norm_num [cfgMon]) cfgMon_stable⟩

/-- The error taxonomy of spec §7. -/
inductive SimError where
  | InvalidDuration
  | InvalidConfiguration
deriving Repr, DecidableEq

/-- Modelled from the spec: configuration loading/validation is an
out-of-scope external collaborator (spec §1) and is absent from
`src/Simulation_Study.py`, which hardcodes its constants (lines
19-27) without any check.  Spec §7: a non-positive rate, size, limit,
or sampling period supplied at start is fatal
(`InvalidConfiguration`), surfaced before the Scheduler begins. -/
def validateConfig (cfg : Config) : Option SimError :=
  if cfg.SERVER_RATE ≤ 0 ∨ cfg.SIZE_PACKET ≤ 0 ∨ cfg.QUEUE_LIMIT ≤ 0 ∨
      1 / cfg.SAMPLING_INTERVALL ≤ 0 then
    some .InvalidConfiguration
  else none

/-- Modelled from the spec: the whole program — validate the supplied
configuration first; only a valid configuration reaches the event
loop (`runSim`), so no simulation step runs under a malformed one. -/
def runProgram (cfg : Config) (expo : Nat → Nat → ℚ → ℚ) (fuel : Nat) :
    Except SimError SimState :=
  match validateConfig cfg with
  | some err => .error err
  | none => .ok (runSim cfg expo fuel)

/-- **C9**: if the server bit-rate, the mean packet size, the buffer
limit, or the sampling period is non-positive, the program fails with
`InvalidConfiguration` — the result is the fatal error for every
pseudorandom family and every amount of event-loop fuel, i.e. it is
produced before the scheduler executes any event and no simulation
state is returned. -/
theorem invalid_config_rejected (cfg : Config) (expo : Nat → Nat → ℚ → ℚ)
    (fuel : Nat)
    (h : cfg.SERVER_RATE ≤ 0 ∨ cfg.SIZE_PACKET ≤ 0 ∨ cfg.QUEUE_LIMIT ≤ 0 ∨
      1 / cfg.SAMPLING_INTERVALL ≤ 0) :
    runProgram cfg expo fuel = .error .InvalidConfiguration := by
  rw [runProgram, validateConfig, if_pos h]

/-- A malformed configuration: negative server bit-rate. -/
def badCfg : Config :=
  { SERVER_RATE := -1000, TIME_ARRIVAL := 1, SIZE_PACKET := 100
    RANDOM_SEED := 42, SIMULATION_TIME := 2, NUMBER_PACKETS := 1
    QUEUE_LIMIT := 100000, LIMIT_BYTES := true, SAMPLING_INTERVALL := 1 }

theorem invalid_config_rejected_witness :
    (badCfg.SERVER_RATE ≤ 0 ∨ badCfg.SIZE_PACKET ≤ 0 ∨
      badCfg.QUEUE_LIMIT ≤ 0 ∨ 1 / badCfg.SAMPLING_INTERVALL ≤ 0) ∧
    runProgram badCfg expo7 10 = .error .InvalidConfiguration :=
  ⟨Or.inl (by norm_num [badCfg]),
   invalid_config_rejected badCfg expo7 10 (Or.inl (by norm_num [badCfg]))⟩
